import Mathlib

/-!
A shallow embedding of the assertion library in `Test.go` of
barbell-math/smoothbrain-test, together with proofs about its
comparison-and-reporting behaviour.

Modelling conventions, applied uniformly:

* Every assertion in `Test.go` either returns normally (the assertion
  passes) or calls `FormatError`, which calls `t.Fatal` and thereby stops
  the test: no statement after the first `FormatError` call executes.  An
  assertion is therefore embedded as a function returning `Option F` for a
  per-assertion failure type `F`: `none` means the assertion returned
  silently, `some f` records the first (and only) failure report delivered
  to `t.Fatal`.
* Go slices become `List`, Go maps become association lists (`List (K × V)`,
  with the expected map enumerated in list order; Go fixes no enumeration
  order, and order-independence is proved where claimed).
* The Go constraint `comparable` with its `==` becomes `[DecidableEq T]`
  with propositional equality.
* `runtime.Caller(1)` results (`file`, `line`) influence only the text of
  the report, never whether one is produced; functions that need them take
  them as parameters.
* Go floating point is embedded as exact rational arithmetic (`ℚ`): the
  comparisons the claims exercise are far from the rounding granularity of
  `float64`, and IEEE rounding is not modelled.
-/

namespace SmoothbrainTest

/-! ## SlicesMatch (Test.go lines 248-266) -/

/-- The two `FormatError` calls `SlicesMatch` can make, with the data the Go
code passes: the two lengths, or the first differing index with the two
elements there. -/
inductive SlicesMatchFail (T : Type) where
  | lengthMismatch (expectedLen gotLen : Nat)
  | valueMismatch (i : Nat) (expected got : T)
deriving DecidableEq

/-- The `for i := 0; i < len(expected); i++` loop of `SlicesMatch`, reached
only when the lengths already matched (otherwise `FormatError` has halted
the test), hence consuming both lists in lockstep; `i` carries the running
index so the report can name it. -/
def slicesMatchLoop [DecidableEq T] : List T → List T → Nat → Option (SlicesMatchFail T)
  | [], _, _ => none
  | _ :: _, [], _ => none
  | e :: es, g :: gs, i =>
    if e ≠ g then some (.valueMismatch i e g) else slicesMatchLoop es gs (i + 1)

/-- `SlicesMatch` (Test.go 248-266): first the length check, then the
index-wise scan.  `none` = the assertion passed. -/
def SlicesMatch [DecidableEq T] (expected got : List T) : Option (SlicesMatchFail T) :=
  if expected.length ≠ got.length then
    some (.lengthMismatch expected.length got.length)
  else
    slicesMatchLoop expected got 0

/-! ## ContainsError (Test.go lines 34-45) -/

/-- A (non-nil) Go error value for the purposes of `errors.Is`: a leaf error
(`errors.New`-style, identified by an id standing for its address) or a
wrapping error (`fmt.Errorf` with `%w`) holding the error it wraps.  Two
errors are `==` in Go exactly when they are the same value, which the
structural equality of the ids captures. -/
inductive GoError where
  | leaf (id : Nat)
  | wrapped (id : Nat) (inner : GoError)
deriving DecidableEq

/-- `errors.Is(err, target)` from the Go standard library, restricted to
errors without `Is` methods: compare `err == target`, else unwrap and
repeat until a leaf. -/
def errorsIs (err target : GoError) : Bool :=
  if err = target then true
  else
    match err with
    | .leaf _ => false
    | .wrapped _ inner => errorsIs inner target

/-- The cause/wrap chain of an error: the error itself and everything
reachable by unwrapping. -/
def errorChain : GoError → List GoError
  | .leaf i => [.leaf i]
  | .wrapped i inner => .wrapped i inner :: errorChain inner

/-- The one `FormatError` call of `ContainsError`. -/
inductive ContainsErrorFail where
  | notContained
deriving DecidableEq

/-- `ContainsError` (Test.go 34-45): fail unless `errors.Is(got, expected)`. -/
def ContainsError (expected got : GoError) : Option ContainsErrorFail :=
  if errorsIs got expected then none else some .notContained

/-! ## EqFloat (Test.go lines 112-124) -/

/-- The one `FormatError` call of `EqFloat`. -/
inductive EqFloatFail where
  | outsideRange
deriving DecidableEq

/-- `EqFloat` (Test.go 112-124): fail when
`math.Abs(float64(expected-got)) > float64(eps)`, over exact rationals. -/
def EqFloat (expected got eps : ℚ) : Option EqFloatFail :=
  if |expected - got| > eps then some .outsideRange else none

/-! ## Lemmas about the slice loop -/

theorem slicesMatchLoop_ne_length [DecidableEq T] (es gs : List T) (i : Nat)
    (el gl : Nat) : slicesMatchLoop es gs i ≠ some (.lengthMismatch el gl) := by
  induction es generalizing gs i with
  | nil => simp [slicesMatchLoop]
  | cons e es ih =>
    cases gs with
    | nil => simp [slicesMatchLoop]
    | cons g gs =>
      by_cases h : e = g <;> simp [slicesMatchLoop, h, ih]

theorem slicesMatchLoop_none_iff [DecidableEq T] (es gs : List T)
    (hlen : es.length = gs.length) (i : Nat) :
    slicesMatchLoop es gs i = none ↔ es = gs := by
  induction es generalizing gs i with
  | nil =>
    cases gs with
    | nil => simp [slicesMatchLoop]
    | cons g gs => simp at hlen
  | cons e es ih =>
    cases gs with
    | nil => simp at hlen
    | cons g gs =>
      simp only [List.length_cons, Nat.succ.injEq] at hlen
      by_cases h : e = g
      · subst h
        simp [slicesMatchLoop, ih gs hlen (i + 1)]
      · simp [slicesMatchLoop, h]

theorem slicesMatchLoop_some_iff [DecidableEq T] (es gs : List T)
    (hlen : es.length = gs.length) (i k : Nat) (a b : T) :
    slicesMatchLoop es gs i = some (.valueMismatch k a b) ↔
      i ≤ k ∧ es[k - i]? = some a ∧ gs[k - i]? = some b ∧ a ≠ b ∧
        ∀ j < k - i, es[j]? = gs[j]? := by
  induction es generalizing gs i with
  | nil =>
    cases gs with
    | nil => simp [slicesMatchLoop]
    | cons g gs => simp at hlen
  | cons e es ih =>
    cases gs with
    | nil => simp at hlen
    | cons g gs =>
      simp only [List.length_cons, Nat.succ.injEq] at hlen
      by_cases h : e = g
      · subst h
        rw [show slicesMatchLoop (e :: es) (e :: gs) i =
            slicesMatchLoop es gs (i + 1) by simp [slicesMatchLoop]]
        rw [ih gs hlen (i + 1)]
        constructor
        · rintro ⟨hik, ha, hb, hab, hmin⟩
          have hik' : i ≤ k := le_trans (Nat.le_succ i) hik
          have hsub : k - i = (k - (i + 1)) + 1 := by omega
          refine ⟨hik', ?_, ?_, hab, ?_⟩
          · rw [hsub]; simpa using ha
          · rw [hsub]; simpa using hb
          · intro j hj
            match j with
            | 0 => simp
            | j + 1 =>
              have : j < k - (i + 1) := by omega
              simpa using hmin j this
        · rintro ⟨hik, ha, hb, hab, hmin⟩
          have hik' : i + 1 ≤ k := by
            rcases Nat.eq_or_lt_of_le hik with h0 | h0
            · exfalso
              have : k - i = 0 := by omega
              rw [this] at ha hb
              simp at ha hb
              exact hab (ha ▸ hb ▸ rfl)
            · omega
          have hsub : k - i = (k - (i + 1)) + 1 := by omega
          refine ⟨hik', ?_, ?_, hab, ?_⟩
          · rw [hsub] at ha; simpa using ha
          · rw [hsub] at hb; simpa using hb
          · intro j hj
            have := hmin (j + 1) (by omega)
            simpa using this
      · rw [show slicesMatchLoop (e :: es) (g :: gs) i =
            some (.valueMismatch i e g) from by simp [slicesMatchLoop, h]]
        constructor
        · rintro hsome
          have hk : i = k ∧ e = a ∧ g = b := by
            simpa using hsome
          obtain ⟨hk, ha, hb⟩ := hk
          subst hk; subst ha; subst hb
          simp [h]
        · rintro ⟨hik, ha, hb, hab, hmin⟩
          have hk : k = i := by
            by_contra hne
            have h0 : (0 : Nat) < k - i := by omega
            have := hmin 0 h0
            simp at this
            exact h this
          subst hk
          simp only [Nat.sub_self] at ha hb
          simp at ha hb
          subst ha; subst hb
          rfl

/-- C5: `SlicesMatch` passes exactly on index-wise equal slices of the same
length; a length mismatch is reported (with the two lengths) before any
content check, and with equal lengths the reported mismatch is the first
differing index, carrying the two elements there.  The three concrete
examples of the claim are included. -/
theorem slicesMatch_spec :
    (∀ (T : Type) [DecidableEq T] (expected got : List T),
      (SlicesMatch expected got = none ↔ expected = got)
      ∧ (expected.length ≠ got.length →
          SlicesMatch expected got =
            some (.lengthMismatch expected.length got.length))
      ∧ (∀ i a b, SlicesMatch expected got = some (.valueMismatch i a b) →
          expected.length = got.length ∧
            expected[i]? = some a ∧ got[i]? = some b ∧ a ≠ b ∧
            ∀ j < i, expected[j]? = got[j]?))
    ∧ SlicesMatch [1, 2, 3] ([1, 2, 3] : List ℕ) = none
    ∧ SlicesMatch [1, 2, 3] ([3, 2, 1] : List ℕ) = some (.valueMismatch 0 1 3)
    ∧ SlicesMatch [1, 2] ([1, 2, 3] : List ℕ) = some (.lengthMismatch 2 3) := by
  refine ⟨?_, by decide, by decide, by decide⟩
  intro T _ expected got
  by_cases hlen : expected.length = got.length
  · refine ⟨?_, fun h => absurd hlen h, ?_⟩
    · rw [show SlicesMatch expected got = slicesMatchLoop expected got 0 from by
        simp [SlicesMatch, hlen]]
      exact slicesMatchLoop_none_iff expected got hlen 0
    · intro i a b hsome
      rw [show SlicesMatch expected got = slicesMatchLoop expected got 0 from by
        simp [SlicesMatch, hlen]] at hsome
      have := (slicesMatchLoop_some_iff expected got hlen 0 i a b).1 hsome
      simp only [Nat.sub_zero] at this
      exact ⟨hlen, this.2.1, this.2.2.1, this.2.2.2.1, this.2.2.2.2⟩
  · have hsm : SlicesMatch expected got =
        some (.lengthMismatch expected.length got.length) := by
      simp [SlicesMatch, hlen]
    refine ⟨?_, fun _ => hsm, ?_⟩
    · rw [hsm]
      simp only [reduceCtorEq, false_iff]
      intro h
      exact hlen (h ▸ rfl)
    · intro i a b hsome
      rw [hsm] at hsome
      simp at hsome

/-! ## Lemmas about the error chain -/

theorem errorsIs_iff_mem_chain (err target : GoError) :
    errorsIs err target = true ↔ target ∈ errorChain err := by
  induction err with
  | leaf i =>
    rw [errorsIs]
    by_cases h : GoError.leaf i = target
    · simp [errorChain, h.symm]
    · simp [errorChain, h]
      exact fun hc => h hc.symm
  | wrapped i inner ih =>
    rw [errorsIs]
    by_cases h : GoError.wrapped i inner = target
    · simp [errorChain, h.symm]
    · simp only [h, if_false, errorChain, List.mem_cons, ih]
      constructor
      · exact Or.inr
      · rintro (hc | hc)
        · exact absurd hc.symm h
        · exact hc

/-- C6: `ContainsError` passes exactly when the expected error appears
somewhere in the actual error's cause/wrap chain, at any depth; the two
concrete chain examples (depth-two wrapping found / absent) are included. -/
theorem containsError_spec :
    (∀ expected got : GoError,
      ContainsError expected got = none ↔ expected ∈ errorChain got)
    ∧ ContainsError (.leaf 0) (.wrapped 1 (.wrapped 2 (.leaf 0))) = none
    ∧ ContainsError (.leaf 7) (.wrapped 1 (.wrapped 2 (.leaf 0))) =
        some .notContained := by
  refine ⟨?_, by decide, by decide⟩
  intro expected got
  rw [ContainsError]
  by_cases h : errorsIs got expected = true
  · simp [h, (errorsIs_iff_mem_chain got expected).1 h]
  · simp only [h, if_false]
    rw [errorsIs_iff_mem_chain] at h
    simp [h]

/-- C7: `EqFloat` passes exactly when the absolute difference of expected
and actual is at most epsilon — an absolute, not relative, bound — and the
two concrete examples of the claim hold: `1.0` vs `1.0 + 1e-9` passes at
`eps = 1e-6`, `1.0` vs `1.1` fails there. -/
theorem eqFloat_spec :
    (∀ expected got eps : ℚ,
      EqFloat expected got eps = none ↔ |expected - got| ≤ eps)
    ∧ EqFloat 1 (1 + 1 / 1000000000) (1 / 1000000) = none
    ∧ EqFloat 1 (11 / 10) (1 / 1000000) = some .outsideRange := by
  refine ⟨?_, ?_, ?_⟩
  · intro expected got eps
    rw [EqFloat]
    by_cases h : |expected - got| > eps
    · simp [h, not_le.mpr h]
    · simp [h, not_lt.mp h]
  · rw [EqFloat, if_neg]
    rw [not_lt]
    rw [show (1 : ℚ) - (1 + 1 / 1000000000) = -(1 / 1000000000) by ring]
    rw [abs_neg, abs_of_nonneg (by norm_num)]
    norm_num
  · rw [EqFloat, if_pos]
    rw [show (1 : ℚ) - 11 / 10 = -(1 / 10) by ring]
    rw [abs_neg, abs_of_nonneg (by norm_num)]
    norm_num

/-! ## Nil / NotNil (Test.go lines 184-242)

`Nil` and `NotNil` take a Go `any`.  A Go interface value is either the nil
interface or carries a value of a concrete (dynamic) type, so `any` is
embedded as `Option GoDynVal` with `none` the nil interface.  Crucially,
`reflect.ValueOf`/`reflect.TypeOf` applied to an `any` parameter observe
the carried dynamic value, and a dynamic type is always concrete, never an
interface type: a "polymorphic wrapper holding an absent value" (say an
`error` variable holding a nil `*T`) reaches `Nil` as `some (.ptrV none)`,
already unwrapped.  Consequently `reflect.TypeOf(v).Kind()` can never be
`reflect.Interface` here, which the kind function below makes visible. -/

/-- The dynamic (concrete-typed) value carried by a non-nil `any`, covering
the kinds the library's documentation names (slice, map, pointer) plus
representative basic kinds.  `none` inside `sliceV`/`mapV`/`ptrV` is Go's
nil slice / nil map / nil pointer; `some` carries the populated content. -/
inductive GoDynVal where
  | intV (n : Int)
  | stringV (s : String)
  | boolV (b : Bool)
  | sliceV (elems : Option (List Int))
  | mapV (entries : Option (List (Int × Int)))
  | ptrV (target : Option Int)

/-- `reflect.Kind` values relevant here.  `interfaceKind` is listed because
`Nil`/`NotNil` test for it, although no dynamic type has it. -/
inductive GoKind where
  | intKind | stringKind | boolKind | sliceKind | mapKind | ptrKind | interfaceKind
deriving DecidableEq

/-- `reflect.TypeOf(v).Kind()` for the dynamic value: the kind of the
concrete dynamic type — in particular never `interfaceKind`. -/
def GoDynVal.kind : GoDynVal → GoKind
  | .intV _ => .intKind
  | .stringV _ => .stringKind
  | .boolV _ => .boolKind
  | .sliceV _ => .sliceKind
  | .mapV _ => .mapKind
  | .ptrV _ => .ptrKind

/-- `reflect.ValueOf(v).IsZero()`: the zero value of the dynamic type —
`0`, `""`, `false`, nil slice, nil map, nil pointer. -/
def GoDynVal.isZero : GoDynVal → Bool
  | .intV n => n == 0
  | .stringV s => s == ""
  | .boolV b => b == false
  | .sliceV o => o.isNone
  | .mapV o => o.isNone
  | .ptrV o => o.isNone

/-- `rv.Elem().IsZero()`: evaluated by `Nil`/`NotNil` only behind the
short-circuited `Kind() == reflect.Interface` test, which is never true for
a dynamic value, so the branch is unreachable and any value here is
behaviourally inert; `false` is used. -/
def GoDynVal.elemIsZero : GoDynVal → Bool := fun _ => false

/-- The one `FormatError` call of `Nil`. -/
inductive NilFail where
  | wasNotNil
deriving DecidableEq

/-- The one `FormatError` call of `NotNil`. -/
inductive NotNilFail where
  | wasNil
deriving DecidableEq

/-- `Nil` (Test.go 184-208): pass on the nil interface, on a zero-valued
dynamic value, or on a dynamic value of interface kind with zero element
(unreachable); otherwise fail. -/
def Nil (v : Option GoDynVal) : Option NilFail :=
  match v with
  | none => none
  | some dv =>
    if dv.isZero then none
    else if dv.kind == GoKind.interfaceKind && dv.elemIsZero then none
    else some .wasNotNil

/-- `NotNil` (Test.go 212-242): fail on the nil interface, on a zero-valued
dynamic value, or on a dynamic value of interface kind with non-zero
element (unreachable); otherwise pass. -/
def NotNil (v : Option GoDynVal) : Option NotNilFail :=
  match v with
  | none => some .wasNil
  | some dv =>
    if dv.isZero then some .wasNil
    else if dv.kind == GoKind.interfaceKind && !dv.elemIsZero then some .wasNil
    else none

/-- The claim's notion of absence, written from its words: a true nil
reference, or a carried value whose underlying storage is the zero value of
its type — nil slice, nil map, nil pointer, or zero-valued basic data.
(The claim's third way, an interface wrapper holding an absent value, is
already one of these two by the time it reaches `Nil`: Go unwraps the
wrapper at the `any` boundary, see the section comment.) -/
def absentValue : Option GoDynVal → Prop
  | none => True
  | some (.intV n) => n = 0
  | some (.stringV s) => s = ""
  | some (.boolV b) => b = false
  | some (.sliceV o) => o = none
  | some (.mapV o) => o = none
  | some (.ptrV o) => o = none

/-- C2: `Nil` passes exactly on absent values — the nil interface, or a
value whose underlying storage is zero-valued (nil slice/map/pointer
included) — and fails on populated containers and other present values.
Concrete conjuncts: a nil slice and a wrapper holding a nil pointer pass; a
populated slice and a populated map fail. -/
theorem nil_spec :
    (∀ v : Option GoDynVal, Nil v = none ↔ absentValue v)
    ∧ Nil (some (.sliceV none)) = none
    ∧ Nil (some (.ptrV none)) = none
    ∧ Nil (some (.sliceV (some [1]))) = some .wasNotNil
    ∧ Nil (some (.mapV (some [(1, 2)]))) = some .wasNotNil := by
  refine ⟨?_, rfl, rfl, rfl, rfl⟩
  intro v
  match v with
  | none => simp [Nil, absentValue]
  | some (.intV n) =>
    simp [Nil, absentValue, GoDynVal.isZero, GoDynVal.kind, GoDynVal.elemIsZero]
  | some (.stringV s) =>
    simp [Nil, absentValue, GoDynVal.isZero, GoDynVal.kind, GoDynVal.elemIsZero]
  | some (.boolV b) =>
    simp [Nil, absentValue, GoDynVal.isZero, GoDynVal.kind, GoDynVal.elemIsZero]
  | some (.sliceV o) =>
    cases o <;>
      simp [Nil, absentValue, GoDynVal.isZero, GoDynVal.kind, GoDynVal.elemIsZero]
  | some (.mapV o) =>
    cases o <;>
      simp [Nil, absentValue, GoDynVal.isZero, GoDynVal.kind, GoDynVal.elemIsZero]
  | some (.ptrV o) =>
    cases o <;>
      simp [Nil, absentValue, GoDynVal.isZero, GoDynVal.kind, GoDynVal.elemIsZero]

/-- C9: over every reachable input — every `any` value, i.e. nil or a
carried concrete dynamic value — `NotNil` fails exactly when `Nil` passes
and `NotNil` passes exactly when `Nil` fails: their pass/fail conditions
are negations of each other. -/
theorem nil_notNil_complement :
    ∀ v : Option GoDynVal,
      ((NotNil v).isSome = true ↔ Nil v = none)
      ∧ ((Nil v).isSome = true ↔ NotNil v = none) := by
  intro v
  match v with
  | none => simp [Nil, NotNil]
  | some dv =>
    cases hz : dv.isZero <;>
      cases dv <;>
        simp_all [Nil, NotNil, GoDynVal.kind, GoDynVal.elemIsZero]

/-! ## Panics / NoPanic (Test.go lines 49-79) -/

/-- The observable behaviour of invoking a zero-argument Go action: it
either returns normally or panics.  (Go ≥ 1.21 turns `panic(nil)` into a
non-nil `*runtime.PanicNilError`, so `recover()` is nil exactly when no
panic happened; the payload itself is never inspected by the library and is
not modelled.) -/
inductive ActionBehavior where
  | returns
  | panics
deriving DecidableEq

/-- A Go call as seen by its caller: a normal return carrying a value, or a
panic propagating out of the call. -/
inductive CallResult (A : Type) where
  | ret (a : A)
  | panicked
deriving DecidableEq

/-- The `defer func() { r := recover(); … }(); body()` pattern of `Panics`
and `NoPanic`: if the body panics, the deferred function observes a non-nil
`recover()` result and the panic is thereby recovered, so the surrounding
call returns normally either way; the handler receives whether a panic was
recovered and yields the failure report, if any. -/
def deferRecover (body : CallResult Unit) (handler : Bool → Option A) :
    CallResult (Option A) :=
  match body with
  | .ret _ => .ret (handler false)
  | .panicked => .ret (handler true)

/-- Running the action under test. -/
def runAction : ActionBehavior → CallResult Unit
  | .returns => .ret ()
  | .panics => .panicked

/-- The `FormatError` calls of `Panics` and `NoPanic`. -/
inductive PanicCheckFail where
  | missingPanic
  | unexpectedPanic
deriving DecidableEq

/-- `Panics` (Test.go 49-62): report a failure exactly when `recover()`
found nothing to recover. -/
def Panics (action : ActionBehavior) : CallResult (Option PanicCheckFail) :=
  deferRecover (runAction action)
    (fun recovered => if recovered then none else some .missingPanic)

/-- `NoPanic` (Test.go 66-79): report a failure exactly when `recover()`
recovered a panic. -/
def NoPanic (action : ActionBehavior) : CallResult (Option PanicCheckFail) :=
  deferRecover (runAction action)
    (fun recovered => if recovered then some .unexpectedPanic else none)

/-- C3: for every action, `Panics` reports a failure exactly when the
action does not panic, `NoPanic` reports a failure exactly when it does,
and in all four combinations the assertion call itself returns normally —
a panic raised by the action never propagates past it. -/
theorem panics_noPanic_spec :
    ∀ action : ActionBehavior,
      (Panics action = .ret (some .missingPanic) ↔ action = .returns)
      ∧ (Panics action = .ret none ↔ action = .panics)
      ∧ (NoPanic action = .ret (some .unexpectedPanic) ↔ action = .panics)
      ∧ (NoPanic action = .ret none ↔ action = .returns)
      ∧ Panics action ≠ .panicked
      ∧ NoPanic action ≠ .panicked := by
  intro action
  cases action <;> simp [Panics, NoPanic, deferRecover, runAction]

/-! ## MapsMatch (Test.go lines 313-344)

`MapsMatch` is generic in `K comparable, V any` and compares values with
`any(gotV) != any(v)`: both sides are boxed into interface values and
compared with Go's native interface equality.  That comparison is total
only for comparable dynamic types; for a non-comparable dynamic type (a
slice value, say) it panics at run time.  It is embedded as a parameter
`goAnyEq : V → V → Option Bool` — `some b` when interface equality yields
`b`, `none` when it panics — which each Go instantiation of `V`
determines. -/

/-- The `FormatError` calls `MapsMatch` can make, with the data the Go code
passes. -/
inductive MapsMatchFail (K V : Type) where
  | lengthMismatch (expectedLen gotLen : Nat)
  | keyMissing (k : K)
  | valueMismatch (gotV v : V)

/-- What a `MapsMatch` call does: return silently, halt with a failure
report, or panic out of the interface comparison. -/
inductive MapsMatchResult (K V : Type) where
  | passed
  | failed (f : MapsMatchFail K V)
  | panicked

/-- The `for k, v := range expected` loop of `MapsMatch`: look each
expected key up in `got`, report a missing key or (via `goAnyEq`) a value
mismatch, where `goAnyEq` returning `none` is a run-time panic escaping the
assertion. -/
def mapsMatchLoop [DecidableEq K] (goAnyEq : V → V → Option Bool)
    (got : List (K × V)) : List (K × V) → MapsMatchResult K V
  | [] => .passed
  | (k, v) :: rest =>
    match got.lookup k with
    | none => .failed (.keyMissing k)
    | some gotV =>
      match goAnyEq gotV v with
      | none => .panicked
      | some eq => if !eq then .failed (.valueMismatch gotV v) else
          mapsMatchLoop goAnyEq got rest

/-- `MapsMatch` (Test.go 313-344): the length check, then the per-key
loop over the expected entries (in their enumeration order). -/
def MapsMatch [DecidableEq K] (goAnyEq : V → V → Option Bool)
    (expected got : List (K × V)) : MapsMatchResult K V :=
  if expected.length ≠ got.length then
    .failed (.lengthMismatch expected.length got.length)
  else
    mapsMatchLoop goAnyEq got expected

/-- Go interface equality `any(x) == any(y)` for a comparable value type:
total, and true exactly on equal values. -/
def goAnyEqOfComparable [DecidableEq V] : V → V → Option Bool :=
  fun a b => some (decide (a = b))

/-- Go interface equality for `V = []int`: the dynamic type is a slice
type, which is not comparable, so the comparison always panics. -/
def goAnyEqIntSlice : List Int → List Int → Option Bool :=
  fun _ _ => none

theorem mapsMatchLoop_passed_iff [DecidableEq K] [DecidableEq V]
    (got : List (K × V)) (es : List (K × V)) :
    mapsMatchLoop goAnyEqOfComparable got es = .passed ↔
      ∀ p ∈ es, got.lookup p.1 = some p.2 := by
  induction es with
  | nil => simp [mapsMatchLoop]
  | cons p rest ih =>
    obtain ⟨k, v⟩ := p
    rw [mapsMatchLoop]
    match hl : got.lookup k with
    | none =>
      simp only [reduceCtorEq, false_iff]
      intro h
      have := h (k, v) (List.mem_cons_self _ _)
      simp [hl] at this
    | some gotV =>
      simp only [goAnyEqOfComparable]
      by_cases hv : gotV = v
      · subst hv
        rw [if_neg (by simp)]
        rw [ih]
        constructor
        · intro h q hq
          rcases List.mem_cons.1 hq with hq | hq
          · subst hq; exact hl
          · exact h q hq
        · intro h q hq
          exact h q (List.mem_cons_of_mem _ hq)
      · rw [if_pos (by simp [hv])]
        simp only [reduceCtorEq, false_iff]
        intro h
        have := h (k, v) (List.mem_cons_self _ _)
        simp only at this
        rw [hl] at this
        exact hv (Option.some_injective _ this)

/-- C4: `MapsMatch` (at a comparable value type) passes exactly when the
maps have the same size and every expected entry is found in the actual map
with an equal value; the passing condition is invariant under permuting the
expected map's enumeration order; and the claim's two concrete examples
hold — `{a ↦ 1, b ↦ 2}` vs `{b ↦ 2, a ↦ 1}` passes, while `{a ↦ 1}` vs
`{a ↦ 1, b ↦ 2}` halts with the length report `1` vs `2`. -/
theorem mapsMatch_spec :
    (∀ (K V : Type) [DecidableEq K] [DecidableEq V]
        (expected got : List (K × V)),
      (MapsMatch goAnyEqOfComparable expected got = .passed ↔
        expected.length = got.length ∧
          ∀ p ∈ expected, got.lookup p.1 = some p.2)
      ∧ (∀ expected2, expected.Perm expected2 →
          (MapsMatch goAnyEqOfComparable expected got = .passed ↔
            MapsMatch goAnyEqOfComparable expected2 got = .passed)))
    ∧ MapsMatch goAnyEqOfComparable [(0, 1), (1, 2)]
        ([(1, 2), (0, 1)] : List (ℕ × ℕ)) = .passed
    ∧ MapsMatch goAnyEqOfComparable [(0, 1)]
        ([(0, 1), (1, 2)] : List (ℕ × ℕ)) =
        .failed (.lengthMismatch 1 2) := by
  have main : ∀ (K V : Type) [DecidableEq K] [DecidableEq V]
      (expected got : List (K × V)),
      MapsMatch goAnyEqOfComparable expected got = .passed ↔
        expected.length = got.length ∧
          ∀ p ∈ expected, got.lookup p.1 = some p.2 := by
    intro K V _ _ expected got
    rw [MapsMatch]
    by_cases hlen : expected.length = got.length
    · rw [if_neg (by simp [hlen])]
      rw [mapsMatchLoop_passed_iff]
      simp [hlen]
    · rw [if_pos hlen]
      simp only [reduceCtorEq, false_iff]
      intro h
      exact hlen h.1
  refine ⟨?_, ?_, ?_⟩
  · intro K V _ _ expected got
    refine ⟨main K V expected got, ?_⟩
    intro expected2 hperm
    rw [main K V expected got, main K V expected2 got]
    constructor
    · rintro ⟨h1, h2⟩
      exact ⟨hperm.length_eq ▸ h1, fun p hp => h2 p (hperm.mem_iff.2 hp)⟩
    · rintro ⟨h1, h2⟩
      exact ⟨hperm.length_eq ▸ h1, fun p hp => h2 p (hperm.mem_iff.1 hp)⟩
  · rw [show MapsMatch goAnyEqOfComparable [(0, 1), (1, 2)]
        ([(1, 2), (0, 1)] : List (ℕ × ℕ)) =
        mapsMatchLoop goAnyEqOfComparable [(1, 2), (0, 1)] [(0, 1), (1, 2)] from
      by rw [MapsMatch, if_neg (by decide)]]
    rfl
  · rw [MapsMatch, if_pos (by decide)]
    rfl

/-- C10: with a non-comparable value type (`[]int`), the boxed interface
comparison panics instead of producing a failure report, even on maps of
equal size whose keys all match with (extensionally) equal values: the
concrete call below passes the length check, finds key `0` with an equal
slice value, and then panics. -/
theorem mapsMatch_panics_on_slice_values :
    MapsMatch goAnyEqIntSlice [((0 : ℕ), [(1 : ℤ), 2])]
        [((0 : ℕ), [(1 : ℤ), 2])] = .panicked
    ∧ [((0 : ℕ), [(1 : ℤ), 2])].length = [((0 : ℕ), [(1 : ℤ), 2])].length
    ∧ ([((0 : ℕ), [(1 : ℤ), 2])].lookup 0 = some [(1 : ℤ), 2]) := by
  refine ⟨?_, rfl, by decide⟩
  rw [MapsMatch, if_neg (by decide)]
  rfl

/-! ## SlicesMatchUnordered (Test.go lines 271-309) -/

/-- The `FormatError` calls `SlicesMatchUnordered` can make. -/
inductive SlicesMatchUnorderedFail (T : Type) where
  | lengthMismatch (expectedLen gotLen : Nat)
  | notAccounted (i : Nat)
  | notEquivalent
deriving DecidableEq

/-- The inner `for j` loop of `SlicesMatchUnordered`: scan `got` from index
`j` upward for the first index holding a value equal to `e` that is not yet
in `usedIndexes` (a value match at an already-used index does not stop the
scan). -/
def findFreshAux [DecidableEq T] (e : T) (used : List Nat) :
    List T → Nat → Option Nat
  | [], _ => none
  | g :: gs, j =>
    if g = e ∧ j ∉ used then some j else findFreshAux e used gs (j + 1)

/-- The outer `for i` loop: pair each expected element (index `i` carried
for the report) with a fresh index of `got`, accumulating `usedIndexes`;
the first unpaired element halts the test (`Sum.inl i`), otherwise the
final set of used indexes is returned (`Sum.inr`).  `usedIndexes` is a Go
`map[int]struct\x7b\x7d`; since only fresh indexes are inserted, a list
extended by fresh elements represents it, and its length is the map's
size. -/
def smuLoop [DecidableEq T] (got : List T) :
    List T → Nat → List Nat → Nat ⊕ List Nat
  | [], _, used => .inr used
  | e :: es, i, used =>
    match findFreshAux e used got 0 with
    | some j => smuLoop got es (i + 1) (j :: used)
    | none => .inl i

/-- `SlicesMatchUnordered` (Test.go 271-309): the length check, the pairing
loop, and the final `len(usedIndexes) != len(expected)` check. -/
def SlicesMatchUnordered [DecidableEq T] (expected got : List T) :
    Option (SlicesMatchUnorderedFail T) :=
  if expected.length ≠ got.length then
    some (.lengthMismatch expected.length got.length)
  else
    match smuLoop got expected 0 [] with
    | .inl i => some (.notAccounted i)
    | .inr used =>
      if used.length ≠ expected.length then some .notEquivalent else none

/-- The multiset of `got` elements whose index is not yet used: the pool
still available to the pairing loop. -/
def unusedPool {T : Type} (got : List T) (used : List Nat) : Multiset T :=
  ↑((got.enum.filter (fun p => !decide (p.1 ∈ used))).map Prod.snd)

/-! ## Lemmas about the unordered pairing loop -/

theorem findFreshAux_none_iff [DecidableEq T] (e : T) (used : List Nat) :
    ∀ (gs : List T) (j : Nat),
      findFreshAux e used gs j = none ↔
        ∀ p ∈ gs.enumFrom j, p.2 = e → p.1 ∈ used := by
  intro gs
  induction gs with
  | nil => intro j; simp [findFreshAux]
  | cons g gs ih =>
    intro j
    rw [findFreshAux]
    have hcons : (g :: gs).enumFrom j = (j, g) :: gs.enumFrom (j + 1) := by
      simp [List.enumFrom]
    by_cases h : g = e ∧ j ∉ used
    · rw [if_pos h]
      constructor
      · intro hc
        exact absurd hc (by simp)
      · intro hall
        exact absurd (hall (j, g) (by simp [hcons]) h.1) h.2
    · rw [if_neg h, ih (j + 1), hcons]
      constructor
      · intro hall p hp he
        rcases List.mem_cons.1 hp with hp | hp
        · subst hp
          simp only at he
          by_contra hju
          exact h ⟨he, hju⟩
        · exact hall p hp he
      · intro hall p hp he
        exact hall p (List.mem_cons_of_mem _ hp) he

theorem findFreshAux_some [DecidableEq T] (e : T) (used : List Nat) :
    ∀ (gs : List T) (j k : Nat),
      findFreshAux e used gs j = some k →
        (k, e) ∈ gs.enumFrom j ∧ k ∉ used := by
  intro gs
  induction gs with
  | nil => intro j k h; simp [findFreshAux] at h
  | cons g gs ih =>
    intro j k h
    rw [findFreshAux] at h
    by_cases hc : g = e ∧ j ∉ used
    · rw [if_pos hc] at h
      obtain rfl : j = k := Option.some_injective _ h
      refine ⟨?_, hc.2⟩
      simp [List.enumFrom, hc.1]
    · rw [if_neg hc] at h
      obtain ⟨hmem, hk⟩ := ih (j + 1) k h
      exact ⟨by simp [List.enumFrom, List.mem_cons, hmem], hk⟩

theorem mem_unusedPool {T : Type} [DecidableEq T] (got : List T)
    (used : List Nat) (e : T) :
    e ∈ unusedPool got used ↔ ∃ k, (k, e) ∈ got.enum ∧ k ∉ used := by
  rw [unusedPool, Multiset.mem_coe, List.mem_map]
  constructor
  · rintro ⟨p, hp, rfl⟩
    rw [List.mem_filter] at hp
    exact ⟨p.1, hp.1, by simpa using hp.2⟩
  · rintro ⟨k, hk, hku⟩
    exact ⟨(k, e), List.mem_filter.2 ⟨hk, by simpa using hku⟩, rfl⟩

theorem filter_ne_fst_coe_eq_erase {T : Type} [DecidableEq T] :
    ∀ (L : List (Nat × T)) (k : Nat) (e : T),
      (L.map Prod.fst).Nodup → (k, e) ∈ L →
        ((L.filter fun p => !decide (p.1 = k)) : Multiset (Nat × T)) =
          (↑L : Multiset (Nat × T)).erase (k, e) := by
  intro L
  induction L with
  | nil => intro k e _ hmem; simp at hmem
  | cons p L ih =>
    intro k e hnd hmem
    rw [List.map_cons, List.nodup_cons] at hnd
    by_cases hpk : p.1 = k
    · have hp : p = (k, e) := by
        rcases List.mem_cons.1 hmem with h | h
        · exact h.symm
        · exfalso
          apply hnd.1
          rw [hpk]
          exact List.mem_map.2 ⟨(k, e), h, rfl⟩
      subst hp
      rw [show ((k, e) :: L).filter (fun p => !decide (p.1 = k)) =
          L.filter (fun p => !decide (p.1 = k)) from by simp]
      rw [List.filter_eq_self.mpr ?_]
      · rw [← Multiset.cons_coe, Multiset.erase_cons_head]
      · intro q hq
        simp only [Bool.not_eq_true', decide_eq_false_iff_not]
        intro hqk
        apply hnd.1
        rw [← hqk]
        exact List.mem_map.2 ⟨q, hq, rfl⟩
    · have hmem' : (k, e) ∈ L := by
        rcases List.mem_cons.1 hmem with h | h
        · exact absurd (congrArg Prod.fst h.symm) hpk
        · exact h
      rw [show (p :: L).filter (fun q => !decide (q.1 = k)) =
          p :: L.filter (fun q => !decide (q.1 = k)) from by simp [hpk]]
      rw [← Multiset.cons_coe, ← Multiset.cons_coe, ih k e hnd.2 hmem',
        Multiset.erase_cons_tail _ fun h => hpk (congrArg Prod.fst h)]

theorem map_snd_erase {T : Type} [DecidableEq T] (M : Multiset (Nat × T))
    (k : Nat) (e : T) (h : (k, e) ∈ M) :
    Multiset.map Prod.snd (M.erase (k, e)) = (Multiset.map Prod.snd M).erase e := by
  obtain ⟨M2, rfl⟩ := Multiset.exists_cons_of_mem h
  rw [Multiset.erase_cons_head, Multiset.map_cons, Multiset.erase_cons_head]

theorem unusedPool_cons {T : Type} [DecidableEq T] {got : List T}
    {used : List Nat} {k : Nat} {e : T}
    (hke : (k, e) ∈ got.enum) (hk : k ∉ used) :
    unusedPool got (k :: used) = (unusedPool got used).erase e := by
  have hpred : got.enum.filter (fun p => !decide (p.1 ∈ k :: used)) =
      (got.enum.filter (fun p => !decide (p.1 ∈ used))).filter
        (fun p => !decide (p.1 = k)) := by
    rw [List.filter_filter]
    apply List.filter_congr
    intro p _
    by_cases h1 : p.1 = k <;> by_cases h2 : p.1 ∈ used <;>
      simp [List.mem_cons, h1, h2]
  have hnd : ((got.enum.filter (fun p => !decide (p.1 ∈ used))).map
      Prod.fst).Nodup :=
    (List.nodup_enum_map_fst got).sublist ((List.filter_sublist _).map _)
  have hmem : (k, e) ∈ got.enum.filter (fun p => !decide (p.1 ∈ used)) :=
    List.mem_filter.2 ⟨hke, by simpa using hk⟩
  have herase := filter_ne_fst_coe_eq_erase _ k e hnd hmem
  have hcoe : ∀ l : List (Nat × T),
      ((l.map Prod.snd : List T) : Multiset T) =
        Multiset.map Prod.snd (↑l : Multiset (Nat × T)) := fun l => by simp
  rw [unusedPool, hpred, hcoe, herase,
    map_snd_erase _ _ _ (Multiset.mem_coe.2 hmem), unusedPool, hcoe]

theorem unusedPool_nil {T : Type} (got : List T) :
    unusedPool got [] = ↑got := by
  rw [unusedPool]
  rw [show got.enum.filter (fun p => !decide (p.1 ∈ ([] : List Nat))) =
      got.enum from List.filter_eq_self.mpr (by simp)]
  rw [List.enum_map_snd]

theorem smuLoop_inr_iff {T : Type} [DecidableEq T] (got : List T) :
    ∀ (es : List T) (i : Nat) (used : List Nat),
      (∃ u, smuLoop got es i used = .inr u) ↔
        (↑es : Multiset T) ≤ unusedPool got used := by
  intro es
  induction es with
  | nil =>
    intro i used
    simp only [smuLoop, Multiset.coe_nil]
    exact ⟨fun _ => Multiset.zero_le _, fun _ => ⟨used, rfl⟩⟩
  | cons e es ih =>
    intro i used
    rw [show (↑(e :: es) : Multiset T) = e ::ₘ ↑es from (Multiset.cons_coe e es).symm]
    match hf : findFreshAux e used got 0 with
    | none =>
      rw [show smuLoop got (e :: es) i used = .inl i from by
        rw [smuLoop, hf]]
      have hnot : e ∉ unusedPool got used := by
        rw [mem_unusedPool]
        rintro ⟨k, hk, hku⟩
        rw [findFreshAux_none_iff] at hf
        exact hku (hf (k, e) hk rfl)
      constructor
      · rintro ⟨u, hu⟩
        simp at hu
      · intro hle
        exact absurd (Multiset.mem_of_le hle (Multiset.mem_cons_self e _)) hnot
    | some k =>
      rw [show smuLoop got (e :: es) i used = smuLoop got es (i + 1) (k :: used)
        from by rw [smuLoop, hf]]
      obtain ⟨hke, hku⟩ := findFreshAux_some e used got 0 k hf
      have hke : (k, e) ∈ got.enum := hke
      have hmem : e ∈ unusedPool got used :=
        (mem_unusedPool got used e).2 ⟨k, hke, hku⟩
      rw [ih (i + 1) (k :: used), unusedPool_cons hke hku]
      rw [show unusedPool got used = e ::ₘ (unusedPool got used).erase e from
        (Multiset.cons_erase hmem).symm]
      rw [Multiset.erase_cons_head, Multiset.cons_le_cons_iff]

theorem smuLoop_inr_length {T : Type} [DecidableEq T] (got : List T) :
    ∀ (es : List T) (i : Nat) (used u : List Nat),
      smuLoop got es i used = .inr u → u.length = es.length + used.length := by
  intro es
  induction es with
  | nil =>
    intro i used u h
    obtain rfl : used = u := by simpa [smuLoop] using h
    simp
  | cons e es ih =>
    intro i used u h
    rw [smuLoop] at h
    match hf : findFreshAux e used got 0 with
    | none => rw [hf] at h; simp at h
    | some k =>
      rw [hf] at h
      have := ih (i + 1) (k :: used) u h
      simp only [List.length_cons] at this ⊢
      omega

/-- C1: `SlicesMatchUnordered` passes exactly when the two slices are equal
as multisets — same length and a one-to-one pairing of equal elements, each
successful pairing consuming a fresh index of the actual slice, so no
actual element is matched twice.  The two concrete duplicate examples of
the claim are included: `[1,1,2]` vs `[1,2,1]` passes, `[1,1,2]` vs
`[1,2,2]` halts. -/
theorem slicesMatchUnordered_spec :
    (∀ (T : Type) [DecidableEq T] (expected got : List T),
      SlicesMatchUnordered expected got = none ↔
        (↑expected : Multiset T) = ↑got)
    ∧ SlicesMatchUnordered [1, 1, 2] ([1, 2, 1] : List ℕ) = none
    ∧ (SlicesMatchUnordered [1, 1, 2] ([1, 2, 2] : List ℕ)).isSome = true := by
  refine ⟨?_, by decide, by decide⟩
  intro T _ expected got
  by_cases hlen : expected.length = got.length
  · rw [show SlicesMatchUnordered expected got =
        (match smuLoop got expected 0 [] with
          | .inl i => some (.notAccounted i)
          | .inr used =>
            if used.length ≠ expected.length then some .notEquivalent
            else none) from by rw [SlicesMatchUnordered, if_neg (by simp [hlen])]]
    match hloop : smuLoop got expected 0 [] with
    | .inl i =>
      simp only [reduceCtorEq, false_iff]
      intro heq
      have hle : (↑expected : Multiset T) ≤ unusedPool got [] := by
        rw [unusedPool_nil, heq]
      obtain ⟨u, hu⟩ := (smuLoop_inr_iff got expected 0 []).2 hle
      rw [hloop] at hu
      simp at hu
    | .inr used =>
      have hul : used.length = expected.length := by
        have := smuLoop_inr_length got expected 0 [] used hloop
        simpa using this
      dsimp only
      rw [if_neg (by simp [hul])]
      simp only [true_iff]
      have hle : (↑expected : Multiset T) ≤ ↑got := by
        rw [← unusedPool_nil got]
        exact (smuLoop_inr_iff got expected 0 []).1 ⟨used, hloop⟩
      exact Multiset.eq_of_le_of_card_le hle (by simp [hlen])
  · rw [show SlicesMatchUnordered expected got =
        some (.lengthMismatch expected.length got.length) from by
      rw [SlicesMatchUnordered, if_pos (by simp [hlen])]]
    simp only [reduceCtorEq, false_iff]
    intro heq
    apply hlen
    have := congrArg Multiset.card heq
    simpa using this

/-! ## FormatError (Test.go lines 19-31)

`FormatError` builds the failure message with one `fmt.Sprintf` over the
fixed format string and hands it to `t.Fatal`.  The verbs it uses — `%s`,
`%d`, `%T` (the argument's dynamic type) and `%v` (its default textual
form) — are modelled by a small interpreter over the format's characters,
consuming one argument per verb as `fmt` does.  A value passed as `any` is
abstracted to the pair of strings `%T` and `%v` would print for it;
`runtime.Caller(1)`'s file and line arrive as parameters (see the module
comment). -/

/-- What formatting a Go value can show of it: the text `%T` prints (its
dynamic type) and the text `%v` prints (its default form). -/
structure ShownVal where
  ty : String
  val : String

/-- One argument in a `fmt.Sprintf` call, as the verbs here consume it. -/
inductive FmtArg where
  | strArg (s : String)
  | intArg (n : Nat)
  | anyArg (v : ShownVal)

/-- What one verb character prints for one argument. -/
def verbOut : Char → FmtArg → List Char
  | 's', .strArg s => s.toList
  | 'd', .intArg n => (toString n).toList
  | 'T', .anyArg v => v.ty.toList
  | 'v', .anyArg v => v.val.toList
  | c, _ => ['%', '!', c]

/-- The `fmt.Sprintf` interpreter over the format's characters: a `%`
followed by a verb consumes the next argument; every other character is
copied. -/
def fmtRun : List Char → List FmtArg → List Char
  | [], _ => []
  | '%' :: c :: rest, a :: args => verbOut c a ++ fmtRun rest args
  | '%' :: c :: rest, [] => '%' :: c :: fmtRun rest []
  | c :: rest, args => c :: fmtRun rest args

/-- `FormatError` (Test.go 19-31): the exact format string of the source,
with the argument list `file, line, base, expected, expected, got, got` the
Go call passes (each of `expected` and `got` feeds one `%T` and one
`%v`). -/
def FormatError (expected got : ShownVal) (base file : String) (line : Nat) :
    String :=
  String.mk (fmtRun
    ("Error | File %s Line %d | %s\nExpected: (%T) '%v'\nGot     : (%T) '%v'").toList
    [.strArg file, .intArg line, .strArg base,
      .anyArg expected, .anyArg expected, .anyArg got, .anyArg got])

/-- C8: for every expected/got value, description and caller position, the
message `FormatError` delivers to `t.Fatal` is exactly the three-line shape
the spec states: a first line naming the caller's file and line and the
description, then an `Expected:` line and a `Got     :` line each carrying
the typed, quoted textual form of the respective value. -/
theorem formatError_shape :
    ∀ (expected got : ShownVal) (base file : String) (line : Nat),
      FormatError expected got base file line =
        "Error | File " ++ file ++ " Line " ++ toString line ++ " | " ++ base ++
          "\nExpected: (" ++ expected.ty ++ ") '" ++ expected.val ++
          "'\nGot     : (" ++ got.ty ++ ") '" ++ got.val ++ "'" := by
  intro expected got base file line
  apply String.ext
  show fmtRun _ _ = _
  simp only [String.toList, fmtRun, verbOut, String.data_append]
  simp [String.mk]

end SmoothbrainTest
